import Mathlib

/-!
Verification of the open-claude-ui agent core: the tool contract
(`app/core/agent/tools/base.py`), the sandbox security policy, the
per-conversation container registry, and the ReAct agent executor.
Pure Python functions are embedded as Lean functions; stateful code is
embedded as explicit state passing.
-/

namespace OpenClaudeUI

/-- Join a list of strings with a separator (Python's `sep.join(xs)`). -/
def joinSep (sep : String) : List String → String
  | [] => ""
  | [x] => x
  | x :: xs => x ++ sep ++ joinSep sep xs

/-- `p.isPrefixOf l` on character lists, by structural recursion (so that
the kernel can evaluate it on concrete strings). -/
def isPrefixC : List Char → List Char → Bool
  | [], _ => true
  | _ :: _, [] => false
  | a :: as, b :: bs => a = b && isPrefixC as bs

/-- Substring test on character lists. -/
def isInfixC (needle : List Char) : List Char → Bool
  | [] => needle.isEmpty
  | l@(_ :: rest) => isPrefixC needle l || isInfixC needle rest

/-- Python's `str.lower()`. -/
def strLower (s : String) : String := ⟨s.data.map Char.toLower⟩

/-- Substring test on strings (Python's `needle in hay`). -/
def strContainsSub (hay needle : String) : Bool := isInfixC needle.data hay.data

/-- Split a character list on a separator character. -/
def splitSepAux (sep : Char) : List Char → List Char → List (List Char)
  | [], cur => [cur.reverse]
  | a :: rest, cur =>
    if a = sep then cur.reverse :: splitSepAux sep rest []
    else splitSepAux sep rest (a :: cur)

/-- Python's `s.split(sep)` for a one-character separator. -/
def splitSep (sep : Char) (s : String) : List String :=
  (splitSepAux sep s.data []).map (fun l => ⟨l⟩)

/-! ## Tool contract: `app/core/agent/tools/base.py` -/

/-- `ToolResult` from `base.py`: result of a tool execution. -/
structure ToolResult where
  success : Bool
  output : String
  error : Option String := none
  metadata : List (String × String) := []
  is_validation_error : Bool := false
  deriving Repr, DecidableEq

/-- One entry of pydantic's `ValidationError.errors()`: a location path and
a message. -/
structure FieldError where
  loc : List String
  msg : String
  deriving Repr, DecidableEq

/-- The part of a pydantic model class that `validate_and_execute` and
`_format_validation_error` consult: a validation function on the keyword
arguments, the first entry of `json_schema_extra`'s `examples` (rendered),
and the schema's `required` key (absent when the schema has none). -/
structure InputSchema (κ : Type) where
  validate : κ → Except (List FieldError) κ
  example? : Option String
  required? : Option (List String)

/-- Outcome of calling a tool's `execute`: a returned `ToolResult` or a
raised exception with its message. -/
inductive ExecOutcome where
  | ok (r : ToolResult)
  | exc (msg : String)
  deriving Repr, DecidableEq

/-- The fields of a `Tool` subclass that `validate_and_execute` uses:
name, optional `input_schema`, optional `handle_validation_error`, and
`execute`. -/
structure Tool (κ : Type) where
  name : String
  input_schema : Option (InputSchema κ)
  handle_validation_error : Option (List FieldError → String)
  execute : κ → ExecOutcome

/-- The part of the default validation-failure message appended when the
schema declares an example (`""` when it declares none, i.e. nothing is
appended). -/
def exampleBlock : Option String → String
  | some ex => "\nExample valid call:\n" ++ ex ++ "\n"
  | none => ""

/-- The part of the default validation-failure message appended when the
schema declares a `required` list (`""` when it declares none). -/
def requiredBlock : Option (List String) → String
  | some required => "\nRequired parameters: " ++ joinSep ", " required ++ "\n"
  | none => ""

/-- `Tool._format_validation_error` from `base.py`: the default
validation-failure message, listing each failing field with its reason,
then the schema's example (when declared) and required-field list (when
declared). -/
def Tool.format_validation_error (name : String) (schema : InputSchema κ)
    (errors : List FieldError) : String :=
  "Parameter validation failed for '" ++ name ++ "':\n"
    ++ joinSep "\n"
      (errors.map (fun err => "  - " ++ (err.loc.headD "root") ++ ": " ++ err.msg))
    ++ "\n"
    ++ exampleBlock schema.example?
    ++ requiredBlock schema.required?
    ++ "\nPlease check the parameters and try again."

/-- `Tool.validate_and_execute` from `base.py`: with no schema, execute
directly, wrapping exceptions; with a schema, validate first, turning a
validation failure into a `ToolResult` with `is_validation_error = true`
(formatted by the custom handler when present, else the default
formatter), and otherwise execute on the validated values, wrapping
exceptions. -/
def Tool.validate_and_execute (t : Tool κ) (kwargs : κ) : ToolResult :=
  match t.input_schema with
  | none =>
    match t.execute kwargs with
    | .ok r => r
    | .exc e =>
      { success := false, output := "", error := some ("Tool execution error: " ++ e) }
  | some schema =>
    match schema.validate kwargs with
    | .ok validated_input =>
      match t.execute validated_input with
      | .ok r => r
      | .exc e =>
        { success := false, output := "", error := some ("Tool execution error: " ++ e) }
    | .error errs =>
      let error_message := match t.handle_validation_error with
        | some handler => handler errs
        | none => Tool.format_validation_error t.name schema errs
      { success := false, output := "", error := some error_message,
        is_validation_error := true }

/-! ## Tool registry: `ToolRegistry` in `base.py`

`ToolRegistry` stores tools in a Python dict keyed by `tool.name`.  A
Python dict assignment to an existing key replaces the value in place
(keeping its position and the dict's size); assignment to a fresh key
appends; `del` removes the entry.  The registry is embedded generically
over the stored tool type `τ` with an explicit name projection. -/

/-- Python-dict assignment `d[k] = v`: replace in place when `k` is
present, else append at the end. -/
def dictSet (k : String) (v : τ) : List (String × τ) → List (String × τ)
  | [] => [(k, v)]
  | (k', v') :: rest =>
    if k' = k then (k, v) :: rest else (k', v') :: dictSet k v rest

/-- Python-dict deletion `del d[k]` (for a present key). -/
def dictDel (k : String) : List (String × τ) → List (String × τ)
  | [] => []
  | (k', v') :: rest =>
    if k' = k then rest else (k', v') :: dictDel k rest

/-- `ToolRegistry` state: the `_tools` dict, as an insertion-ordered
association list. -/
structure ToolRegistry (τ : Type) where
  tools : List (String × τ)
  deriving Repr, DecidableEq

/-- `ToolRegistry()`: empty registry. -/
def ToolRegistry.empty : ToolRegistry τ := ⟨[]⟩

/-- `ToolRegistry.register`: `self._tools[tool.name] = tool`. -/
def ToolRegistry.register (name : τ → String) (reg : ToolRegistry τ) (tool : τ) :
    ToolRegistry τ :=
  ⟨dictSet (name tool) tool reg.tools⟩

/-- `ToolRegistry.unregister`: delete the entry when present, else do
nothing. -/
def ToolRegistry.unregister (reg : ToolRegistry τ) (tool_name : String) :
    ToolRegistry τ :=
  if (reg.tools.map Prod.fst).contains tool_name then
    ⟨dictDel tool_name reg.tools⟩
  else reg

/-- `ToolRegistry.get`: `self._tools.get(tool_name)`. -/
def ToolRegistry.get (reg : ToolRegistry τ) (tool_name : String) : Option τ :=
  (reg.tools.find? (fun p => p.1 = tool_name)).map Prod.snd

/-- `ToolRegistry.list_tools`: `list(self._tools.values())`. -/
def ToolRegistry.list_tools (reg : ToolRegistry τ) : List τ :=
  reg.tools.map Prod.snd

/-- `ToolRegistry.has_tool`: `tool_name in self._tools`. -/
def ToolRegistry.has_tool (reg : ToolRegistry τ) (tool_name : String) : Bool :=
  (reg.tools.map Prod.fst).contains tool_name

/-! ## Sandbox security policy: `app/core/sandbox/security.py`

The module itself is absent from the tree (only `tests/core/sandbox/
test_security.py` and callers remain), so the functions below are
modelled from the specification. -/

/-- Modelled from the spec: the deny-list of `sanitize_command` in the
missing `app/core/sandbox/security.py` — "command-chaining-plus-
destructive patterns (e.g. `;rm -rf`, `&&rm -rf`, `|rm -rf`, backticked
or `$()`-wrapped destructive payloads — no whitespace required between
the chaining operator and the payload)". -/
def dangerous_patterns : List String :=
  [";rm -rf", "&&rm -rf", "|rm -rf", "$(rm -rf", "`rm -rf"]

/-- The rejection message of `sanitize_command` ("reject with a
\"dangerous command\" error"). -/
def dangerousCommandMsg : String := "Dangerous command detected"

/-- Modelled from the spec: `sanitize_command` from the missing
`app/core/sandbox/security.py` — "case-insensitive match against a
deny-list …  On match: reject with a \"dangerous command\" error ….  On
no match: pass through unchanged, byte-for-byte." -/
def sanitize_command (command : String) : Except String String :=
  if dangerous_patterns.any
      (fun p => strContainsSub (strLower command) (strLower p)) then
    Except.error dangerousCommandMsg
  else
    Except.ok command

/-- One step of `..`/`.`/empty-segment normalization: empty and `.`
segments are dropped, `..` pops the previous segment (staying at the
root when there is none), anything else is kept. -/
def normStep (acc : List String) (seg : String) : List String :=
  if seg = "" || seg = "." then acc
  else if seg = ".." then acc.dropLast
  else acc ++ [seg]

/-- Modelled from the spec: the `..`-normalized form of an absolute
path — "normalize `..` segments". -/
def normalize_path (p : String) : String :=
  "/" ++ joinSep "/" ((splitSep '/' p).foldl normStep [])

/-- Modelled from the spec: `validate_file_path` from the missing
`app/core/sandbox/security.py` — "normalize `..` segments; accept only
if the normalized absolute path is equal to or nested under
`allowed_base`; reject otherwise (including any path that is not already
absolute)". -/
def validate_file_path (path : String) (allowed_base : String := "/workspace") : Bool :=
  if isPrefixC "/".data path.data then
    let norm := normalize_path path
    norm = allowed_base || isPrefixC (allowed_base ++ "/").data norm.data
  else
    false

/-! ## Container registry: `app/core/sandbox/manager.py`

The module is absent from the tree (only its integration tests and
callers remain), so the registry is modelled from the specification,
with the naming scheme the integration tests pin down
(`opencodex-sandbox-<session_id>`, workspace path embedding the session
id). -/

/-- The per-conversation sandbox environment as the registry exposes it:
an environment identifier (the container name) and a workspace root. -/
structure SandboxContainer where
  container_name : String
  workspace_path : String
  is_running : Bool
  deriving Repr, DecidableEq

/-- Modelled from the spec: provisioning in the missing
`app/core/sandbox/manager.py` — "provision a new one with a workspace
path and naming that embeds `conversation_id`".  The container name
prefix is the one the integration tests assert
(`opencodex-sandbox-{session_id}`). -/
def make_container (session_id : String) : SandboxContainer :=
  { container_name := "opencodex-sandbox-" ++ session_id
    workspace_path := "/var/opencodex/workspaces/" ++ session_id
    is_running := true }

/-- The container manager's state: conversation id → live environment. -/
structure ContainerManager where
  containers : List (String × SandboxContainer)
  deriving Repr, DecidableEq

/-- Modelled from the spec: `create_container` (`create_or_reuse`) from
the missing `app/core/sandbox/manager.py` — "if a live environment
already exists for `conversation_id`, return it unchanged (same
identifier, same workspace); otherwise provision a new one". -/
def create_container (m : ContainerManager) (session_id : String)
    (_environment_type : String) : ContainerManager × SandboxContainer :=
  match m.containers.find? (fun p => p.1 = session_id) with
  | some p => (m, p.2)
  | none =>
    let c := make_container session_id
    (⟨m.containers ++ [(session_id, c)]⟩, c)

/-- Well-formedness of the manager's state: every registered environment
is the one provisioned for its own conversation id. -/
def ContainerManager.wf (m : ContainerManager) : Prop :=
  ∀ p ∈ m.containers, p.2 = make_container p.1

/-! ## Agent executor: `app/core/agent/executor.py`

The module is absent from the tree (only `tests/core/agent/
test_executor.py` remains), so the ReAct loop is modelled from the
specification §4.5: a per-iteration state machine that consumes a model
turn chunk by chunk (checking the cooperative cancellation flag before
each chunk), accumulates the index-0 tool call, and at end of turn
either finishes with a final answer or applies the parse / edit-policy /
validation / execution / loop-detection pipeline. -/

/-- Structured tool arguments (the result of parsing the accumulated
partial-arguments text). -/
abbrev Args := List (String × String)

/-- `ToolCallState`: the per-turn accumulator for the streamed call —
tool name once known, and the accumulating partial-arguments text. -/
structure ToolCallState where
  name : Option String
  arguments : String
  deriving Repr, DecidableEq

/-- One streamed model delta: plain text, or a tool-call fragment keyed
by call index carrying an optional name and an arguments fragment. -/
inductive ChunkPayload where
  | text (s : String)
  | tool_frag (index : Nat) (name : Option String) (arguments : String)
  deriving Repr, DecidableEq

/-- A chunk as the executor sees it; `sets_cancel` records that the
cooperative cancellation signal becomes set right after this chunk is
yielded (the way the tests set it from inside the mock stream). -/
structure Chunk where
  payload : ChunkPayload
  sets_cancel : Bool := false
  deriving Repr, DecidableEq

/-- One full model turn: the streamed chunks, then optionally a raised
stream error. -/
structure ModelTurn where
  chunks : List Chunk
  error : Option String := none
  deriving Repr, DecidableEq

/-- A conversation-history message, with the optional tool-call framing
(`function_call`: name and raw arguments) the executor reads back. -/
structure Message where
  role : String
  content : String
  function_call : Option (String × String) := none
  deriving Repr, DecidableEq

/-- The executor's typed output events (§4.5). -/
inductive Event where
  | chunk (content : String)
  | action_streaming (tool : String) (arguments : String)
  | action (tool : String) (arguments : String)
  | observation (success : Bool) (output : String)
  | final_answer (content : String)
  | error (content : String)
  | cancelled (content : String)
  deriving Repr, DecidableEq

/-- Content of the single `cancelled` event. -/
def cancelledMsg : String := "Request cancelled by user"

/-- Content of the synthetic `final_answer` emitted when the iteration
budget is exhausted. -/
def maxIterationsMsg : String :=
  "Reached maximum iterations without completing the task"

/-- Corrective message appended when an edit-type call targets a path
with no prior completed `file_read` of it. -/
def editRequiresReadMsg (path : String) : String :=
  "You must call file_read on '" ++ path ++ "' before editing it"

/-- Corrective message for unparseable tool arguments (handled exactly
like a validation failure). -/
def parseFailMsg : String := "Could not parse tool call arguments"

/-- The stronger hint appended once the validation-retry budget is
exceeded. -/
def strongerHintMsg : String :=
  "Repeated validation failures: change your approach"

/-- Corrective message appended when loop detection fires. -/
def loopDetectedMsg : String :=
  "You keep repeating the same failing tool call: stop repeating and try a different approach"

/-- The executor's configuration: the streaming model backend, the tool
registry view (name → the tool object whose `validate_and_execute` the
executor calls), the structured-arguments parse function, which tools
count as edit-type, and the three tunables. -/
structure AgentConfig where
  backend : List Message → ModelTurn
  tools : List (String × Tool Args)
  parse : String → Option Args
  edit_tools : List String := ["edit_lines"]
  max_iterations : Nat := 10
  max_validation_retries : Nat := 3
  max_same_tool_retries : Nat := 5

/-- The executor's per-run mutable state. -/
structure RunState where
  messages : List Message
  validation_retry_count : Nat
  tool_call_history : List (String × String × Bool)
  cancel : Bool
  deriving Repr, DecidableEq

/-- A corrective message appended to history (visible only to the
model). -/
def corrective (content : String) : Message :=
  { role := "user", content := content }

/-- Fold one index-0 fragment into the per-turn call accumulator: the
first named fragment fixes the tool name, argument text concatenates. -/
def updateTC (tc : Option ToolCallState) (name : Option String)
    (arguments : String) : ToolCallState :=
  let cur := tc.getD { name := none, arguments := "" }
  { name := cur.name <|> name, arguments := cur.arguments ++ arguments }

/-- Result of consuming one turn's chunk stream. -/
structure ConsumeOut where
  events : List Event
  final_buf : String
  tc : Option ToolCallState
  cancel : Bool
  cancelled_early : Bool
  deriving Repr, DecidableEq

/-- Consume a turn's chunks in order.  Before each chunk the
cancellation flag is checked; if set, consumption stops with
`cancelled_early`.  Text chunks append to the final-answer buffer and
emit `chunk`; index-0 tool fragments accumulate into the tracked call
and emit `action_streaming`; fragments at any other index are
ignored. -/
def consumeChunks (cancel : Bool) (buf : String) (tc : Option ToolCallState) :
    List Chunk → ConsumeOut
  | [] => ⟨[], buf, tc, cancel, false⟩
  | c :: rest =>
    if cancel then ⟨[], buf, tc, cancel, true⟩
    else
      let cancel' := cancel || c.sets_cancel
      match c.payload with
      | .text s =>
        let r := consumeChunks cancel' (buf ++ s) tc rest
        { r with events := Event.chunk s :: r.events }
      | .tool_frag i name arguments =>
        if i = 0 then
          let tc' := updateTC tc name arguments
          let ev : List Event := match tc'.name with
            | some n => [Event.action_streaming n tc'.arguments]
            | none => []
          let r := consumeChunks cancel' buf (some tc') rest
          { r with events := ev ++ r.events }
        else
          consumeChunks cancel' buf tc rest

/-- `_validate_before_edit`: the history contains a completed
`file_read` call whose parsed arguments name the same path. -/
def validate_before_edit (parse : String → Option Args)
    (messages : List Message) (path : String) : Bool :=
  messages.any (fun m =>
    match m.function_call with
    | some (n, arguments) =>
      n = "file_read" && ((parse arguments).bind (fun a => a.lookup "path") = some path)
    | none => false)

/-- Bookkeeping shared by parse failures and validation errors: append
the corrective message and bump the retry counter; once the counter
exceeds `max_validation_retries`, also append the stronger hint and
reset the counter. -/
def applyValidationFailure (cfg : AgentConfig) (st : RunState)
    (errMsg : String) : RunState :=
  let cnt := st.validation_retry_count + 1
  if cfg.max_validation_retries < cnt then
    { st with
        messages := st.messages ++ [corrective errMsg, corrective strongerHintMsg]
        validation_retry_count := 0 }
  else
    { st with
        messages := st.messages ++ [corrective errMsg]
        validation_retry_count := cnt }

/-- Loop detection: the last `max_same_tool_retries` entries of
`tool_call_history` are the same (tool, argument-fingerprint) with a
failing outcome. -/
def loopDetected (cfg : AgentConfig)
    (hist : List (String × String × Bool)) : Bool :=
  decide (0 < cfg.max_same_tool_retries) &&
  decide (cfg.max_same_tool_retries ≤ hist.length) &&
  (match hist.drop (hist.length - cfg.max_same_tool_retries) with
   | [] => false
   | (n₀, a₀, _) :: rest =>
     ((n₀, a₀, false) :: rest).all (fun e => e.1 = n₀ && e.2.1 = a₀ && e.2.2 = false))

/-- The three terminal events a run can end with. -/
inductive TermEvent where
  | final_answer (content : String)
  | error (content : String)
  | cancelled (content : String)
  deriving Repr, DecidableEq

/-- View a terminal event as a stream event. -/
def TermEvent.toEvent : TermEvent → Event
  | .final_answer s => .final_answer s
  | .error s => .error s
  | .cancelled s => .cancelled s

/-- What one iteration decides: halt the run with a terminal event, or
continue with an updated state. -/
inductive StepResult where
  | halt (terminal : TermEvent)
  | next (st : RunState)
  deriving Repr, DecidableEq

/-- One iteration's emitted (non-terminal) events and its decision. -/
structure StepOut where
  events : List Event
  result : StepResult
  deriving Repr, DecidableEq

/-- The pre-execution edit policy decision: `some p` means the call is
an edit-type action on path `p` with no prior completed `file_read` of
`p` in history, and must be rejected. -/
def editBlockFor (cfg : AgentConfig) (msgs : List Message) (n : String)
    (args : Args) : Option String :=
  if cfg.edit_tools.contains n then
    match args.lookup "path" with
    | some p =>
      if validate_before_edit cfg.parse msgs p then none else some p
    | none => none
  else none

/-- Look the tool up and call its `validate_and_execute`; an unknown
tool name yields a not-found execution failure. -/
def lookupResult (cfg : AgentConfig) (n : String) (args : Args) : ToolResult :=
  match cfg.tools.lookup n with
  | some t => t.validate_and_execute args
  | none =>
    { success := false, output := ""
      error := some ("Tool '" ++ n ++ "' not found") }

/-- The assistant message recording the executed call. -/
def callMsg (n rawArgs : String) : Message :=
  { role := "assistant", content := "", function_call := some (n, rawArgs) }

/-- The history message recording the executed call's result. -/
def resultMsg (result : ToolResult) : Message :=
  { role := "user"
    content := if result.success then result.output else result.error.getD "" }

/-- Step 4d–4e: emit `action` then `observation`, append both the call
and its result to history, record the call in `tool_call_history`, and
apply loop detection (clear the history and append the corrective hint
when it fires). -/
def runExecuted (cfg : AgentConfig) (st : RunState) (n rawArgs : String)
    (result : ToolResult) : StepOut :=
  ⟨[Event.action n rawArgs, Event.observation result.success result.output],
   .next { st with
     messages := st.messages ++ [callMsg n rawArgs, resultMsg result]
       ++ (if loopDetected cfg (st.tool_call_history ++ [(n, rawArgs, result.success)]) then
            [corrective loopDetectedMsg] else [])
     tool_call_history :=
       if loopDetected cfg (st.tool_call_history ++ [(n, rawArgs, result.success)]) then []
       else st.tool_call_history ++ [(n, rawArgs, result.success)] }⟩

/-- Steps 4b–4e for a tool call whose arguments parsed: edit policy →
`validate_and_execute` → execution bookkeeping. -/
def runParsed (cfg : AgentConfig) (st : RunState) (n rawArgs : String)
    (args : Args) : StepOut :=
  match editBlockFor cfg st.messages n args with
  | some p =>
    ⟨[], .next { st with messages := st.messages ++ [corrective (editRequiresReadMsg p)] }⟩
  | none =>
    if (lookupResult cfg n args).is_validation_error then
      ⟨[], .next (applyValidationFailure cfg st ((lookupResult cfg n args).error.getD ""))⟩
    else
      runExecuted cfg st n rawArgs (lookupResult cfg n args)

/-- Step 4 for an accumulated named tool call: parse → edit policy →
`validate_and_execute` → execution bookkeeping. -/
def runToolCall (cfg : AgentConfig) (st : RunState) (n rawArgs : String) : StepOut :=
  match cfg.parse rawArgs with
  | none => ⟨[], .next (applyValidationFailure cfg st parseFailMsg)⟩
  | some args => runParsed cfg st n rawArgs args

/-- End-of-turn processing (§4.5 steps 4–5): with an accumulated named
tool call, run the parse → edit-policy → `validate_and_execute` →
action/observation → loop-detection pipeline; with none, emit the
final answer. -/
def endOfTurn (cfg : AgentConfig) (st : RunState) (buf : String)
    (tc : Option ToolCallState) : StepOut :=
  match tc with
  | some ⟨some n, rawArgs⟩ => runToolCall cfg st n rawArgs
  | _ => ⟨[], .halt (TermEvent.final_answer buf)⟩

/-- One full iteration: call the backend on the accumulated messages,
consume its stream (cancellation-checked), then either halt on
cancellation or stream error, or do end-of-turn processing. -/
def stepTurn (cfg : AgentConfig) (st : RunState) : StepOut :=
  if (consumeChunks st.cancel "" none (cfg.backend st.messages).chunks).cancelled_early then
    ⟨(consumeChunks st.cancel "" none (cfg.backend st.messages).chunks).events,
     .halt (TermEvent.cancelled cancelledMsg)⟩
  else
    match (cfg.backend st.messages).error with
    | some e =>
      ⟨(consumeChunks st.cancel "" none (cfg.backend st.messages).chunks).events,
       .halt (TermEvent.error e)⟩
    | none =>
      ⟨(consumeChunks st.cancel "" none (cfg.backend st.messages).chunks).events
        ++ (endOfTurn cfg
            { st with cancel := (consumeChunks st.cancel "" none (cfg.backend st.messages).chunks).cancel }
            (consumeChunks st.cancel "" none (cfg.backend st.messages).chunks).final_buf
            (consumeChunks st.cancel "" none (cfg.backend st.messages).chunks).tc).events,
       (endOfTurn cfg
            { st with cancel := (consumeChunks st.cancel "" none (cfg.backend st.messages).chunks).cancel }
            (consumeChunks st.cancel "" none (cfg.backend st.messages).chunks).final_buf
            (consumeChunks st.cancel "" none (cfg.backend st.messages).chunks).tc).result⟩

/-- The iteration loop: each unit of fuel is one model call; exhausted
fuel emits the synthetic maximum-iterations final answer.  Returns the
ordered event stream and the number of model calls made. -/
def runLoop (cfg : AgentConfig) : Nat → RunState → List Event × Nat
  | 0, _ => ([Event.final_answer maxIterationsMsg], 0)
  | fuel + 1, st =>
    match stepTurn cfg st with
    | ⟨events, .halt te⟩ => (events ++ [te.toEvent], 1)
    | ⟨events, .next st'⟩ =>
      let r := runLoop cfg fuel st'
      (events ++ r.1, r.2 + 1)

/-- The system-instructions message (its text is irrelevant to the
properties below). -/
def systemMessage : Message :=
  { role := "system", content := "You are a ReAct agent." }

/-- The initial run state: system message, prior history, then the user
prompt. -/
def initState (prompt : String) (history : List Message) (cancel : Bool) : RunState :=
  { messages := systemMessage :: history ++ [{ role := "user", content := prompt }]
    validation_retry_count := 0
    tool_call_history := []
    cancel := cancel }

/-- `ReActAgent.run`: the whole run, returning the ordered event stream
and the number of model calls. -/
def run (cfg : AgentConfig) (prompt : String)
    (history : List Message := []) (cancel : Bool := false) : List Event × Nat :=
  runLoop cfg cfg.max_iterations (initState prompt history cancel)

/-- The name of the tool call a turn's chunk stream accumulates (from a
clear cancellation flag), when it accumulates one. -/
def turnToolName (turn : ModelTurn) : Option String :=
  ((consumeChunks false "" none turn.chunks).tc).bind (fun t => t.name)

/-! ## Concrete instances used to exercise the model -/

/-- A small concrete argument parser (`k=v;k=v`), standing in for JSON
parsing of the accumulated argument text. -/
def kvParse (s : String) : Option Args :=
  (splitSep ';' s).mapM (fun item =>
    match splitSep '=' item with
    | [k, v] => some (k, v)
    | _ => none)

/-- A schemaless tool whose execution always succeeds with the given
output. -/
def plainTool (nm output : String) : Tool Args :=
  { name := nm, input_schema := none, handle_validation_error := none
    execute := fun _ => .ok { success := true, output := output } }

/-- A schema that rejects every argument set with one field error, and
declares an example and a required list. -/
def sampleSchema : InputSchema Args :=
  { validate := fun _ => Except.error [⟨["command"], "Field required"⟩]
    example? := some "command=ls"
    required? := some ["command", "timeout"] }

/-- A tool carrying `sampleSchema` and no custom validation-error
handler. -/
def sampleTool : Tool Args :=
  { name := "bash", input_schema := some sampleSchema
    handle_validation_error := none
    execute := fun _ => .ok { success := true, output := "ran" } }

/-- A backend that answers every turn with the same complete `bash` tool
call (the always-tool-calling backend of the max-iterations test). -/
def maxIterCfg : AgentConfig :=
  { backend := fun _ => ⟨[⟨.tool_frag 0 (some "bash") "input=ls", false⟩], none⟩
    tools := [("bash", plainTool "bash" "Command executed")]
    parse := kvParse
    max_iterations := 2 }

/-- A backend whose first chunk sets the cancellation signal mid-stream
and then keeps streaming (the cancellation test's mock). -/
def cancelCfg : AgentConfig :=
  { backend := fun _ => ⟨[⟨.text "Starting...", true⟩, ⟨.text "More content", false⟩], none⟩
    tools := []
    parse := kvParse }

/-- A backend that always requests `edit_lines` on `/test.py`. -/
def editCfg : AgentConfig :=
  { backend := fun _ => ⟨[⟨.tool_frag 0 (some "edit_lines") "path=/test.py", false⟩], none⟩
    tools := [("edit_lines", plainTool "edit_lines" "edited")]
    parse := kvParse
    max_iterations := 2 }

/-- A history message recording a completed `file_read` of `/test.py`. -/
def readMsg : Message :=
  { role := "assistant", content := "", function_call := some ("file_read", "path=/test.py") }

/-- A backend whose first turn streams two complete tool calls at
indices 0 (`bash`) and 1 (`file_read`), and afterwards answers with
plain text. -/
def multiCfg : AgentConfig :=
  { backend := fun msgs =>
      if msgs.length ≤ 2 then
        ⟨[⟨.tool_frag 0 (some "bash") "input=ls", false⟩,
          ⟨.tool_frag 1 (some "file_read") "path=/test", false⟩], none⟩
      else ⟨[⟨.text "Done", false⟩], none⟩
    tools := [("bash", plainTool "bash" "ok"), ("file_read", plainTool "file_read" "data")]
    parse := kvParse }

/-! ## Event-stream predicates -/

/-- Terminal events: `final_answer`, `error`, `cancelled`. -/
def Event.isTerminal : Event → Bool
  | .final_answer _ => true
  | .error _ => true
  | .cancelled _ => true
  | _ => false

/-- `action` events. -/
def Event.isAction : Event → Bool
  | .action _ _ => true
  | _ => false

/-- `observation` events. -/
def Event.isObservation : Event → Bool
  | .observation _ _ => true
  | _ => false

/-- `final_answer` events. -/
def Event.isFinalAnswer : Event → Bool
  | .final_answer _ => true
  | _ => false

/-- `cancelled` events. -/
def Event.isCancelled : Event → Bool
  | .cancelled _ => true
  | _ => false

/-- Every `action` event is immediately followed by its `observation`
event. -/
def actions_paired : List Event → Bool
  | [] => true
  | [e] => !e.isAction
  | e :: f :: rest =>
    if e.isAction then f.isObservation && actions_paired rest
    else actions_paired (f :: rest)

/-- `needle` occurs as a substring of `hay`. -/
def mentions (hay needle : String) : Prop :=
  ∃ pre post : String, hay = pre ++ needle ++ post

/-! ## Helper lemmas -/

theorem strData_inj {s t : String} (h : s.data = t.data) : s = t := by
  cases s; cases t; exact congrArg String.mk h

theorem isPrefixC_iff (p l : List Char) :
    isPrefixC p l = true ↔ ∃ v, l = p ++ v := by
  induction p generalizing l with
  | nil => simp [isPrefixC]
  | cons a as ih =>
    cases l with
    | nil => simp [isPrefixC]
    | cons b bs =>
      simp only [isPrefixC, Bool.and_eq_true, decide_eq_true_eq, ih,
        List.cons_append]
      constructor
      · rintro ⟨rfl, v, rfl⟩
        exact ⟨v, rfl⟩
      · rintro ⟨v, hv⟩
        injection hv with h1 h2
        exact ⟨h1.symm, v, h2⟩

theorem isInfixC_iff (n l : List Char) :
    isInfixC n l = true ↔ ∃ u v, l = u ++ n ++ v := by
  induction l with
  | nil =>
    simp only [isInfixC, List.isEmpty_iff]
    constructor
    · rintro rfl
      exact ⟨[], [], rfl⟩
    · rintro ⟨u, v, huv⟩
      rcases List.append_eq_nil.mp huv.symm with ⟨h1, h2⟩
      rcases List.append_eq_nil.mp h1 with ⟨-, h3⟩
      exact h3
  | cons b bs ih =>
    simp only [isInfixC, Bool.or_eq_true, isPrefixC_iff, ih]
    constructor
    · rintro (⟨v, hv⟩ | ⟨u, v, rfl⟩)
      · exact ⟨[], v, by simpa using hv⟩
      · exact ⟨b :: u, v, rfl⟩
    · rintro ⟨u, v, huv⟩
      cases u with
      | nil =>
        left
        exact ⟨v, by simpa using huv⟩
      | cons x xs =>
        right
        injection huv with h1 h2
        exact ⟨xs, v, h2⟩

theorem strContainsSub_iff (hay needle : String) :
    strContainsSub hay needle = true ↔ mentions hay needle := by
  unfold strContainsSub mentions
  rw [isInfixC_iff]
  constructor
  · rintro ⟨u, v, huv⟩
    refine ⟨⟨u⟩, ⟨v⟩, strData_inj ?_⟩
    simp [String.data_append, huv]
  · rintro ⟨pre, post, rfl⟩
    exact ⟨pre.data, post.data, by simp [String.data_append]⟩

theorem strStartsWith_iff (x y : String) :
    isPrefixC x.data y.data = true ↔ ∃ r : String, y = x ++ r := by
  rw [isPrefixC_iff]
  constructor
  · rintro ⟨v, hv⟩
    exact ⟨⟨v⟩, strData_inj (by simp [String.data_append, hv])⟩
  · rintro ⟨r, rfl⟩
    exact ⟨r.data, by simp [String.data_append]⟩

theorem mentions_decomp {a b : String} (x : String) : mentions (a ++ x ++ b) x :=
  ⟨a, b, rfl⟩

theorem mentions_append_right {hay x : String} (h : mentions hay x) (t : String) :
    mentions (hay ++ t) x := by
  obtain ⟨pre, post, rfl⟩ := h
  exact ⟨pre, post ++ t, by rw [String.append_assoc]⟩

theorem mentions_append_left {hay x : String} (s : String) (h : mentions hay x) :
    mentions (s ++ hay) x := by
  obtain ⟨pre, post, rfl⟩ := h
  exact ⟨s ++ pre, post, by simp [String.append_assoc]⟩

theorem mentions_self (x : String) : mentions x x :=
  ⟨"", "", by rw [String.empty_append, String.append_empty]⟩

theorem mentions_joinSep (sep x : String) (l : List String) (hx : x ∈ l) :
    mentions (joinSep sep l) x := by
  induction l with
  | nil => simp at hx
  | cons y ys ih =>
    cases ys with
    | nil =>
      rcases List.mem_singleton.mp hx with rfl
      exact mentions_self x
    | cons z zs =>
      rcases List.mem_cons.mp hx with rfl | hmem
      · exact mentions_append_right
          (mentions_append_right (mentions_self x) sep) (joinSep sep (z :: zs))
      · exact mentions_append_left (y ++ sep) (ih hmem)

/-! ## Claims about the security policy -/

/-- C1: `sanitize_command` either rejects with the "dangerous command"
error or returns the command unchanged byte-for-byte, and it rejects
exactly when the command contains a deny-listed
chaining-plus-destructive pattern, matched case-insensitively; in
particular `ls -la` passes through unchanged while `ls;rm -rf /` and
`;RM -RF /` are rejected. -/
theorem sanitize_command_correct :
    (∀ c : String,
      (sanitize_command c = Except.error dangerousCommandMsg ↔
        ∃ p ∈ dangerous_patterns, mentions (strLower c) (strLower p)) ∧
      (sanitize_command c = Except.ok c ↔
        ¬ ∃ p ∈ dangerous_patterns, mentions (strLower c) (strLower p)))
    ∧ sanitize_command "ls -la" = Except.ok "ls -la"
    ∧ sanitize_command "ls;rm -rf /" = Except.error dangerousCommandMsg
    ∧ sanitize_command ";RM -RF /" = Except.error dangerousCommandMsg := by
  refine ⟨fun c => ?_, rfl, rfl, rfl⟩
  have key : dangerous_patterns.any
      (fun p => strContainsSub (strLower c) (strLower p)) = true ↔
      ∃ p ∈ dangerous_patterns, mentions (strLower c) (strLower p) := by
    rw [List.any_eq_true]
    constructor
    · rintro ⟨p, hp, hc⟩
      exact ⟨p, hp, (strContainsSub_iff _ _).mp hc⟩
    · rintro ⟨p, hp, hc⟩
      exact ⟨p, hp, (strContainsSub_iff _ _).mpr hc⟩
  unfold sanitize_command
  by_cases h : dangerous_patterns.any
      (fun p => strContainsSub (strLower c) (strLower p)) = true
  · rw [if_pos h]
    simp [key.mp h]
  · rw [if_neg h]
    rw [key] at h
    simp [h]

/-- C2: `validate_file_path` accepts exactly the already-absolute paths
whose `..`-normalized form is equal to or nested under the allowed
base; in particular `/workspace/../etc/passwd` and
`relative/path/file.txt` are rejected under the default base while
in-workspace paths are accepted. -/
theorem validate_file_path_correct :
    (∀ P B : String,
      validate_file_path P B = true ↔
        ((∃ r : String, P = "/" ++ r) ∧
         (normalize_path P = B ∨ ∃ r : String, normalize_path P = B ++ "/" ++ r)))
    ∧ validate_file_path "/workspace/../etc/passwd" = false
    ∧ validate_file_path "relative/path/file.txt" = false
    ∧ validate_file_path "/workspace/out/../../etc/passwd" = false
    ∧ validate_file_path "/etc/passwd" = false
    ∧ validate_file_path "/workspace/out/script.py" = true
    ∧ validate_file_path "/workspace/test.py" = true
    ∧ validate_file_path "/custom/path/file.txt" "/custom" = true
    ∧ validate_file_path "/other/path/file.txt" "/custom" = false := by
  refine ⟨fun P B => ?_, by decide, by decide, by decide, by decide,
    by decide, by decide, by decide, by decide⟩
  unfold validate_file_path
  by_cases habs : isPrefixC "/".data P.data = true
  · rw [if_pos habs]
    rw [strStartsWith_iff] at habs
    simp only [Bool.or_eq_true, decide_eq_true_eq, strStartsWith_iff]
    constructor
    · rintro (h | ⟨r, hr⟩)
      · exact ⟨habs, Or.inl h⟩
      · exact ⟨habs, Or.inr ⟨r, by rw [hr, String.append_assoc]⟩⟩
    · rintro ⟨-, h | ⟨r, hr⟩⟩
      · exact Or.inl h
      · exact Or.inr ⟨r, by rw [hr, String.append_assoc]⟩
  · rw [if_neg habs]
    rw [strStartsWith_iff] at habs
    simp only [Bool.false_eq_true, false_iff]
    rintro ⟨habs', -⟩
    exact habs habs'

/-! ## Claims about the container registry -/

theorem str_append_right_inj {s a b : String} (h : s ++ a = s ++ b) : a = b := by
  have hd : s.data ++ a.data = s.data ++ b.data := by
    have := congrArg String.data h
    simpa [String.data_append] using this
  exact strData_inj (List.append_cancel_left hd)

theorem create_container_snd {m : ContainerManager} (hwf : m.wf)
    (id et : String) : (create_container m id et).2 = make_container id := by
  unfold create_container
  cases hf : m.containers.find? (fun p => p.1 = id) with
  | none => simp
  | some p =>
    have hmem := List.mem_of_find?_eq_some hf
    have hpred : p.1 = id := by simpa using List.find?_some hf
    simpa [hwf p hmem] using congrArg make_container hpred

theorem create_container_wf {m : ContainerManager} (hwf : m.wf)
    (id et : String) : (create_container m id et).1.wf := by
  unfold create_container
  cases hf : m.containers.find? (fun p => p.1 = id) with
  | none =>
    intro p hp
    rcases List.mem_append.mp hp with hp | hp
    · exact hwf p hp
    · rcases List.mem_singleton.mp hp with rfl
      rfl
  | some q => exact hwf

theorem create_container_reuse {m : ContainerManager} (id et et' : String) :
    (create_container (create_container m id et).1 id et') =
      ((create_container m id et).1, (create_container m id et).2) := by
  unfold create_container
  cases hf : m.containers.find? (fun p => p.1 = id) with
  | some p => simp [hf]
  | none =>
    simp only [hf]
    have : (m.containers ++ [(id, make_container id)]).find? (fun p => p.1 = id)
        = some (id, make_container id) := by
      rw [List.find?_append, hf]
      simp
    simp [this]

/-- C3: `create_container` called twice for the same conversation id
returns the identical environment (same identifier and workspace path)
and provisions no second environment; environments of two distinct
conversation ids always have distinct identifiers and distinct
workspace paths, each embedding its own conversation id. -/
theorem create_container_correct
    (m : ContainerManager) (id a b et et' : String) (hwf : m.wf) :
    ((create_container (create_container m id et).1 id et').2 = (create_container m id et).2
      ∧ (create_container (create_container m id et).1 id et').1 = (create_container m id et).1)
    ∧ (a ≠ b →
        (create_container m a et).2.container_name ≠ (create_container m b et').2.container_name
        ∧ (create_container m a et).2.workspace_path ≠ (create_container m b et').2.workspace_path)
    ∧ mentions (create_container m a et).2.container_name a
    ∧ mentions (create_container m a et).2.workspace_path a := by
  have hreuse := @create_container_reuse m id et et'
  refine ⟨⟨by rw [hreuse], by rw [hreuse]⟩, ?_, ?_, ?_⟩
  · intro hab
    rw [create_container_snd hwf a et, create_container_snd hwf b et']
    constructor
    · intro h
      exact hab (@str_append_right_inj "opencodex-sandbox-" _ _ h)
    · intro h
      exact hab (@str_append_right_inj "/var/opencodex/workspaces/" _ _ h)
  · rw [create_container_snd hwf a et]
    exact mentions_append_left "opencodex-sandbox-" (mentions_self a)
  · rw [create_container_snd hwf a et]
    exact mentions_append_left "/var/opencodex/workspaces/" (mentions_self a)

/-- Witness for C3 at concrete conversation ids `s1`, `s2` on the empty
registry. -/
theorem create_container_correct_witness :
    (create_container (create_container ⟨[]⟩ "s1" "python3.11").1 "s1" "python3.11").2
        = (create_container (⟨[]⟩ : ContainerManager) "s1" "python3.11").2
    ∧ (create_container (⟨[]⟩ : ContainerManager) "s1" "python3.11").2.container_name
        ≠ (create_container (⟨[]⟩ : ContainerManager) "s2" "python3.11").2.container_name
    ∧ (create_container (⟨[]⟩ : ContainerManager) "s1" "python3.11").2.workspace_path
        ≠ (create_container (⟨[]⟩ : ContainerManager) "s2" "python3.11").2.workspace_path := by
  obtain ⟨h1, h2, h3, h4⟩ :=
    create_container_correct ⟨[]⟩ "s1" "s1" "s2" "python3.11" "python3.11"
      (fun p hp => absurd hp (by simp))
  exact ⟨h1.1, (h2 (by decide)).1, (h2 (by decide)).2⟩

/-! ## Claims about the tool contract -/

theorem vae_no_schema {κ : Type} (t : Tool κ) (h : t.input_schema = none) (kwargs : κ) :
    t.validate_and_execute kwargs =
      match t.execute kwargs with
      | .ok r => r
      | .exc e =>
        { success := false, output := "", error := some ("Tool execution error: " ++ e) } := by
  unfold Tool.validate_and_execute
  rw [h]

theorem vae_with_schema {κ : Type} (t : Tool κ) (schema : InputSchema κ)
    (h : t.input_schema = some schema) (kwargs : κ) :
    t.validate_and_execute kwargs =
      match schema.validate kwargs with
      | .ok validated_input =>
        (match t.execute validated_input with
         | .ok r => r
         | .exc e =>
           { success := false, output := "", error := some ("Tool execution error: " ++ e) })
      | .error errs =>
        { success := false, output := ""
          error := some (match t.handle_validation_error with
            | some handler => handler errs
            | none => Tool.format_validation_error t.name schema errs)
          is_validation_error := true } := by
  unfold Tool.validate_and_execute
  rw [h]

/-- C4: a `ToolResult` with `is_validation_error = true` always has
`success = false`: every result `validate_and_execute` constructs itself
satisfies the invariant, and results passed through from an `execute`
satisfying it keep it. -/
theorem tool_result_validation_invariant {κ : Type} (t : Tool κ) (kwargs : κ)
    (hexec : ∀ a r, t.execute a = ExecOutcome.ok r →
      r.is_validation_error = true → r.success = false)
    (hive : (t.validate_and_execute kwargs).is_validation_error = true) :
    (t.validate_and_execute kwargs).success = false := by
  cases hschema : t.input_schema with
  | none =>
    rw [vae_no_schema t hschema kwargs] at hive ⊢
    cases hex : t.execute kwargs with
    | ok r =>
      rw [hex] at hive
      exact hexec kwargs r hex hive
    | exc e => rfl
  | some schema =>
    rw [vae_with_schema t schema hschema kwargs] at hive ⊢
    cases hv : schema.validate kwargs with
    | ok validated =>
      rw [hv] at hive
      have hive' : (match t.execute validated with
          | .ok r => r
          | .exc e =>
            ({ success := false, output := ""
               error := some ("Tool execution error: " ++ e) } : ToolResult)).is_validation_error
          = true := hive
      show (match t.execute validated with
          | .ok r => r
          | .exc e =>
            ({ success := false, output := ""
               error := some ("Tool execution error: " ++ e) } : ToolResult)).success = false
      cases hex : t.execute validated with
      | ok r =>
        rw [hex] at hive'
        exact hexec validated r hex hive'
      | exc e => rfl
    | error errs => rfl

/-- Witness for C4 at a concrete tool whose schema rejects the call. -/
theorem tool_result_validation_invariant_witness :
    (sampleTool.validate_and_execute []).is_validation_error = true
    ∧ (sampleTool.validate_and_execute []).success = false := by
  refine ⟨rfl, tool_result_validation_invariant sampleTool [] ?_ rfl⟩
  intro a r h hv
  simp only [sampleTool, ExecOutcome.ok.injEq] at h
  rw [← h] at hv
  exact absurd hv (by decide)

theorem mentions_exampleBlock (ex : String) :
    mentions (exampleBlock (some ex)) ("Example valid call:\n" ++ ex) := by
  refine ⟨"\n", "\n", ?_⟩
  show "\nExample valid call:\n" ++ ex ++ "\n" = _
  rw [show ("\nExample valid call:\n" : String) = "\n" ++ "Example valid call:\n" from rfl,
    String.append_assoc "\n"]

theorem mentions_requiredBlock (required : List String) :
    mentions (requiredBlock (some required))
      ("Required parameters: " ++ joinSep ", " required) := by
  refine ⟨"\n", "\n", ?_⟩
  show "\nRequired parameters: " ++ joinSep ", " required ++ "\n" = _
  rw [show ("\nRequired parameters: " : String) = "\n" ++ "Required parameters: " from rfl,
    String.append_assoc "\n"]

/-- C5: with a declared schema, no custom handler, and failing
validation, `validate_and_execute` returns `success = false`,
`is_validation_error = true`, its error text is the default formatted
message — which lists each failing field with its reason, the example
payload when the schema declares one, and the schema's required field
names — and `execute` is not called (the result is independent of it). -/
theorem validate_and_execute_validation_error {κ : Type} (t : Tool κ) (kwargs : κ)
    (schema : InputSchema κ) (errs : List FieldError)
    (hschema : t.input_schema = some schema)
    (hhandler : t.handle_validation_error = none)
    (hval : schema.validate kwargs = Except.error errs) :
    t.validate_and_execute kwargs =
      { success := false, output := ""
        error := some (Tool.format_validation_error t.name schema errs)
        is_validation_error := true }
    ∧ (∀ fe ∈ errs,
        mentions (Tool.format_validation_error t.name schema errs)
          ("  - " ++ fe.loc.headD "root" ++ ": " ++ fe.msg))
    ∧ (∀ ex, schema.example? = some ex →
        mentions (Tool.format_validation_error t.name schema errs)
          ("Example valid call:\n" ++ ex))
    ∧ (∀ required, schema.required? = some required →
        mentions (Tool.format_validation_error t.name schema errs)
          ("Required parameters: " ++ joinSep ", " required))
    ∧ (∀ exec' : κ → ExecOutcome,
        Tool.validate_and_execute
          { name := t.name, input_schema := t.input_schema
            handle_validation_error := t.handle_validation_error
            execute := exec' } kwargs = t.validate_and_execute kwargs) := by
  refine ⟨?_, ?_, ?_, ?_, ?_⟩
  · simp [Tool.validate_and_execute, hschema, hval, hhandler]
  · intro fe hfe
    have hline := mentions_joinSep "\n"
      ("  - " ++ fe.loc.headD "root" ++ ": " ++ fe.msg)
      (errs.map (fun err => "  - " ++ (err.loc.headD "root") ++ ": " ++ err.msg))
      (List.mem_map_of_mem _ hfe)
    unfold Tool.format_validation_error
    exact mentions_append_right (mentions_append_right (mentions_append_right
      (mentions_append_right (mentions_append_left _ hline) _) _) _) _
  · intro ex hex
    unfold Tool.format_validation_error
    rw [hex]
    exact mentions_append_right (mentions_append_right
      (mentions_append_left _ (mentions_exampleBlock ex)) _) _
  · intro required hreq
    unfold Tool.format_validation_error
    rw [hreq]
    exact mentions_append_right
      (mentions_append_left _ (mentions_requiredBlock required)) _
  · intro exec'
    simp [Tool.validate_and_execute, hschema, hval, hhandler]

/-- Witness for C5 at `sampleTool`, whose schema declares an example and
a required list and rejects every call with one field error. -/
theorem validate_and_execute_validation_error_witness :
    (sampleTool.validate_and_execute []).success = false
    ∧ (sampleTool.validate_and_execute []).is_validation_error = true
    ∧ (sampleTool.validate_and_execute []).error =
        some (Tool.format_validation_error "bash" sampleSchema
          [⟨["command"], "Field required"⟩])
    ∧ mentions (Tool.format_validation_error "bash" sampleSchema
        [⟨["command"], "Field required"⟩]) ("  - command: Field required")
    ∧ mentions (Tool.format_validation_error "bash" sampleSchema
        [⟨["command"], "Field required"⟩]) ("Example valid call:\n" ++ "command=ls")
    ∧ mentions (Tool.format_validation_error "bash" sampleSchema
        [⟨["command"], "Field required"⟩])
        ("Required parameters: " ++ joinSep ", " ["command", "timeout"]) := by
  obtain ⟨h1, h2, h3, h4, -⟩ :=
    validate_and_execute_validation_error sampleTool [] sampleSchema
      [⟨["command"], "Field required"⟩] rfl rfl rfl
  refine ⟨by rw [h1], by rw [h1], by rw [h1]; rfl, ?_, h3 "command=ls" rfl, h4 _ rfl⟩
  exact h2 ⟨["command"], "Field required"⟩ (by simp)

/-! ## Claims about the tool registry -/

theorem find_dictSet_self {τ : Type} (k : String) (v : τ) (l : List (String × τ)) :
    (dictSet k v l).find? (fun p => p.1 = k) = some (k, v) := by
  induction l with
  | nil => simp [dictSet]
  | cons hd tl ih =>
    by_cases hk : hd.1 = k
    · cases hd
      simp_all [dictSet]
    · cases hd
      simp_all [dictSet, List.find?]

theorem keys_dictSet_mem {τ : Type} (k : String) (v : τ) (l : List (String × τ))
    (h : k ∈ l.map Prod.fst) :
    (dictSet k v l).map Prod.fst = l.map Prod.fst := by
  induction l with
  | nil => simp at h
  | cons hd tl ih =>
    by_cases hk : hd.1 = k
    · cases hd
      simp_all [dictSet]
    · cases hd
      rcases List.mem_cons.mp h with h1 | h1
      · simp_all
      · simp_all [dictSet]

theorem keys_dictSet_not_mem {τ : Type} (k : String) (v : τ) (l : List (String × τ))
    (h : k ∉ l.map Prod.fst) :
    (dictSet k v l).map Prod.fst = l.map Prod.fst ++ [k] := by
  induction l with
  | nil => simp [dictSet]
  | cons hd tl ih =>
    cases hd with
    | mk k' v' =>
      simp only [List.map_cons, List.mem_cons] at h
      push_neg at h
      simp [dictSet, Ne.symm h.1, ih h.2]

/-- C10: registering a tool under an already-registered name replaces
the earlier tool: `get` afterwards returns the new tool, the key list
is unchanged (hence no duplicate entry and no growth in size), key
uniqueness is preserved in general, and `unregister` of an absent name
leaves the registry unchanged. -/
theorem tool_registry_correct {τ : Type} (name : τ → String)
    (reg : ToolRegistry τ) (t : τ) (nm : String) :
    ((reg.register name t).get (name t) = some t)
    ∧ (reg.has_tool (name t) = true →
        ((reg.register name t).tools.length = reg.tools.length
         ∧ (reg.register name t).tools.map Prod.fst = reg.tools.map Prod.fst))
    ∧ ((reg.tools.map Prod.fst).Nodup →
        ((reg.register name t).tools.map Prod.fst).Nodup)
    ∧ (reg.has_tool nm = false → reg.unregister nm = reg) := by
  refine ⟨?_, ?_, ?_, ?_⟩
  · simp [ToolRegistry.get, ToolRegistry.register, find_dictSet_self]
  · intro h
    have hmem : name t ∈ reg.tools.map Prod.fst := by
      simpa [ToolRegistry.has_tool] using h
    have hkeys := keys_dictSet_mem (name t) t reg.tools hmem
    refine ⟨?_, hkeys⟩
    have := congrArg List.length hkeys
    simpa [ToolRegistry.register] using this
  · intro hnd
    by_cases hmem : name t ∈ reg.tools.map Prod.fst
    · rw [show (reg.register name t).tools.map Prod.fst = reg.tools.map Prod.fst from
        keys_dictSet_mem (name t) t reg.tools hmem]
      exact hnd
    · rw [show (reg.register name t).tools.map Prod.fst
          = reg.tools.map Prod.fst ++ [name t] from
        keys_dictSet_not_mem (name t) t reg.tools hmem]
      refine List.Nodup.append hnd (List.nodup_singleton _) ?_
      intro a ha hb
      rcases List.mem_singleton.mp hb with rfl
      exact hmem ha
  · intro h
    rw [ToolRegistry.has_tool] at h
    simp only [ToolRegistry.unregister, h, Bool.false_eq_true, if_false]

/-- Witness for C10 on a concrete one-entry registry. -/
theorem tool_registry_correct_witness :
    ((ToolRegistry.register Prod.fst ⟨[("bash", ("bash", 1))]⟩ ("bash", 2)).get "bash"
        = some ("bash", 2))
    ∧ (ToolRegistry.register Prod.fst ⟨[("bash", ("bash", 1))]⟩ ("bash", 2)).tools.length
        = (⟨[("bash", ("bash", 1))]⟩ : ToolRegistry (String × Nat)).tools.length
    ∧ ((ToolRegistry.register Prod.fst ⟨[("bash", ("bash", 1))]⟩ ("bash", 2)).tools.map
        Prod.fst).Nodup
    ∧ ToolRegistry.unregister (⟨[("bash", ("bash", 1))]⟩ : ToolRegistry (String × Nat)) "think"
        = ⟨[("bash", ("bash", 1))]⟩ := by
  obtain ⟨h1, h2, h3, h4⟩ :=
    tool_registry_correct (Prod.fst : String × Nat → String)
      ⟨[("bash", ("bash", 1))]⟩ ("bash", 2) "think"
  exact ⟨h1, (h2 (by decide)).1, h3 (by decide), h4 (by decide)⟩

/-! ## Claims about the agent executor -/

theorem toEvent_isTerminal (te : TermEvent) : te.toEvent.isTerminal = true := by
  cases te <;> rfl

theorem toEvent_not_action (te : TermEvent) : te.toEvent.isAction = false := by
  cases te <;> rfl

theorem not_finalAnswer_of_not_terminal {e : Event} (h : e.isTerminal = false) :
    e.isFinalAnswer = false := by
  cases e <;> simp_all [Event.isTerminal, Event.isFinalAnswer]

theorem isTerminal_of_isCancelled {e : Event} (h : e.isCancelled = true) :
    e.isTerminal = true := by
  cases e <;> simp_all [Event.isTerminal, Event.isCancelled]

theorem consume_events_shape (chunks : List Chunk) (cancel : Bool) (buf : String)
    (tc : Option ToolCallState) :
    ∀ e ∈ (consumeChunks cancel buf tc chunks).events,
      e.isTerminal = false ∧ e.isAction = false ∧ e.isObservation = false := by
  induction chunks generalizing cancel buf tc with
  | nil =>
    intro e he
    simp [consumeChunks] at he
  | cons c rest ih =>
    intro e he
    obtain ⟨payload, sets⟩ := c
    cases cancel with
    | true => simp [consumeChunks] at he
    | false =>
      cases payload with
      | text s =>
        simp [consumeChunks] at he
        rcases he with rfl | he'
        · exact ⟨rfl, rfl, rfl⟩
        · exact ih _ _ _ e he'
      | tool_frag i name arguments =>
        by_cases hi : i = 0
        · subst hi
          cases hn : (updateTC tc name arguments).name with
          | none =>
            simp [consumeChunks, hn] at he
            exact ih _ _ _ e he
          | some n =>
            simp [consumeChunks, hn] at he
            rcases he with rfl | he'
            · exact ⟨rfl, rfl, rfl⟩
            · exact ih _ _ _ e he'
        · simp [consumeChunks, hi] at he
          exact ih _ _ _ e he

theorem actions_paired_cons {x : Event} {l : List Event} (hx : x.isAction = false)
    (hl : actions_paired l = true) : actions_paired (x :: l) = true := by
  cases l with
  | nil => simp [actions_paired, hx]
  | cons f rest =>
    simpa [actions_paired, hx] using hl

theorem actions_paired_append_noaction {xs ys : List Event}
    (hxs : ∀ e ∈ xs, e.isAction = false) (hys : actions_paired ys = true) :
    actions_paired (xs ++ ys) = true := by
  induction xs with
  | nil => simpa using hys
  | cons x xs ih =>
    exact actions_paired_cons (hxs x (by simp))
      (ih (fun e he => hxs e (by simp [he])))

theorem actions_paired_action_obs (n a : String) (s : Bool) (o : String)
    {l : List Event} (hl : actions_paired l = true) :
    actions_paired (Event.action n a :: Event.observation s o :: l) = true := by
  simpa [actions_paired, Event.isAction, Event.isObservation] using hl

theorem runToolCall_eq_parsefail {cfg : AgentConfig} {st : RunState} {n rawArgs : String}
    (h : cfg.parse rawArgs = none) :
    runToolCall cfg st n rawArgs = ⟨[], .next (applyValidationFailure cfg st parseFailMsg)⟩ := by
  unfold runToolCall
  rw [h]

theorem runToolCall_eq_parsed {cfg : AgentConfig} {st : RunState} {n rawArgs : String}
    {args : Args} (h : cfg.parse rawArgs = some args) :
    runToolCall cfg st n rawArgs = runParsed cfg st n rawArgs args := by
  unfold runToolCall
  rw [h]

theorem runParsed_eq_blocked {cfg : AgentConfig} {st : RunState} {n rawArgs : String}
    {args : Args} {p : String} (h : editBlockFor cfg st.messages n args = some p) :
    runParsed cfg st n rawArgs args =
      ⟨[], .next { st with messages := st.messages ++ [corrective (editRequiresReadMsg p)] }⟩ := by
  unfold runParsed
  rw [h]

theorem runParsed_eq_vfail {cfg : AgentConfig} {st : RunState} {n rawArgs : String}
    {args : Args} (hb : editBlockFor cfg st.messages n args = none)
    (hive : (lookupResult cfg n args).is_validation_error = true) :
    runParsed cfg st n rawArgs args =
      ⟨[], .next (applyValidationFailure cfg st ((lookupResult cfg n args).error.getD ""))⟩ := by
  unfold runParsed
  rw [hb, if_pos hive]

theorem runParsed_eq_exec {cfg : AgentConfig} {st : RunState} {n rawArgs : String}
    {args : Args} (hb : editBlockFor cfg st.messages n args = none)
    (hive : (lookupResult cfg n args).is_validation_error = false) :
    runParsed cfg st n rawArgs args =
      runExecuted cfg st n rawArgs (lookupResult cfg n args) := by
  unfold runParsed
  rw [hb, if_neg (by simp [hive])]

theorem runToolCall_events_shape (cfg : AgentConfig) (st : RunState) (n rawArgs : String) :
    (runToolCall cfg st n rawArgs).events = [] ∨
    ∃ s o, (runToolCall cfg st n rawArgs).events
      = [Event.action n rawArgs, Event.observation s o] := by
  cases hp : cfg.parse rawArgs with
  | none =>
    rw [runToolCall_eq_parsefail hp]
    left; rfl
  | some args =>
    rw [runToolCall_eq_parsed hp]
    cases hb : editBlockFor cfg st.messages n args with
    | some p =>
      rw [runParsed_eq_blocked hb]
      left; rfl
    | none =>
      by_cases hive : (lookupResult cfg n args).is_validation_error = true
      · rw [runParsed_eq_vfail hb hive]
        left; rfl
      · rw [runParsed_eq_exec hb (by simpa using hive)]
        right
        exact ⟨_, _, rfl⟩

theorem endOfTurn_events_shape (cfg : AgentConfig) (st : RunState) (buf : String)
    (tc : Option ToolCallState) :
    (endOfTurn cfg st buf tc).events = [] ∨
    ∃ n a s o, (endOfTurn cfg st buf tc).events = [Event.action n a, Event.observation s o] := by
  rcases tc with - | ⟨nm, rawArgs⟩
  · left; rfl
  rcases nm with - | n
  · left; rfl
  · rw [show endOfTurn cfg st buf (some ⟨some n, rawArgs⟩) = runToolCall cfg st n rawArgs
      from rfl]
    rcases runToolCall_events_shape cfg st n rawArgs with h | ⟨s, o, h⟩
    · left; exact h
    · right; exact ⟨n, rawArgs, s, o, h⟩

theorem stepTurn_events_shape (cfg : AgentConfig) (st : RunState) :
    (∀ e ∈ (stepTurn cfg st).events, e.isTerminal = false)
    ∧ (∀ l, actions_paired l = true →
        actions_paired ((stepTurn cfg st).events ++ l) = true) := by
  unfold stepTurn
  by_cases hc : (consumeChunks st.cancel "" none (cfg.backend st.messages).chunks).cancelled_early = true
  · rw [if_pos hc]
    refine ⟨fun e he => (consume_events_shape _ _ _ _ e he).1, fun l hl => ?_⟩
    exact actions_paired_append_noaction
      (fun e he => (consume_events_shape _ _ _ _ e he).2.1) hl
  · rw [if_neg hc]
    cases herr : (cfg.backend st.messages).error with
    | some e =>
      refine ⟨fun e he => (consume_events_shape _ _ _ _ e he).1, fun l hl => ?_⟩
      exact actions_paired_append_noaction
        (fun e he => (consume_events_shape _ _ _ _ e he).2.1) hl
    | none =>
      constructor
      · intro e he
        rcases List.mem_append.mp he with he' | he'
        · exact (consume_events_shape _ _ _ _ e he').1
        · rcases endOfTurn_events_shape cfg _ _ _ with hsh | ⟨n, a, s, o, hsh⟩
          · rw [hsh] at he'
            simp at he'
          · rw [hsh] at he'
            rcases List.mem_cons.mp he' with rfl | he''
            · rfl
            · rcases List.mem_singleton.mp he'' with rfl
              rfl
      · intro l hl
        rw [List.append_assoc]
        refine actions_paired_append_noaction
          (fun e he => (consume_events_shape _ _ _ _ e he).2.1) ?_
        rcases endOfTurn_events_shape cfg { st with cancel := (consumeChunks st.cancel "" none (cfg.backend st.messages).chunks).cancel } (consumeChunks st.cancel "" none (cfg.backend st.messages).chunks).final_buf (consumeChunks st.cancel "" none (cfg.backend st.messages).chunks).tc with hsh | ⟨n, a, s, o, hsh⟩
        · rw [hsh]
          simpa using hl
        · rw [hsh]
          exact actions_paired_action_obs n a s o hl

theorem runLoop_zero (cfg : AgentConfig) (st : RunState) :
    runLoop cfg 0 st = ([Event.final_answer maxIterationsMsg], 0) := rfl

theorem runLoop_succ_halt {cfg : AgentConfig} {st : RunState} {fuel : Nat}
    {evts : List Event} {te : TermEvent} (h : stepTurn cfg st = ⟨evts, .halt te⟩) :
    runLoop cfg (fuel + 1) st = (evts ++ [te.toEvent], 1) := by
  unfold runLoop
  rw [h]

theorem runLoop_succ_next {cfg : AgentConfig} {st : RunState} {fuel : Nat}
    {evts : List Event} {st' : RunState} (h : stepTurn cfg st = ⟨evts, .next st'⟩) :
    runLoop cfg (fuel + 1) st
      = (evts ++ (runLoop cfg fuel st').1, (runLoop cfg fuel st').2 + 1) := by
  conv_lhs => unfold runLoop
  rw [h]

theorem runLoop_shape (cfg : AgentConfig) (fuel : Nat) (st : RunState) :
    (∃ e, (runLoop cfg fuel st).1.getLast? = some e ∧ e.isTerminal = true)
    ∧ (runLoop cfg fuel st).1.countP (fun e => e.isTerminal) = 1
    ∧ actions_paired (runLoop cfg fuel st).1 = true := by
  induction fuel generalizing st with
  | zero =>
    refine ⟨⟨Event.final_answer maxIterationsMsg, by simp [runLoop_zero], rfl⟩, ?_, ?_⟩
    · simp [runLoop_zero, List.countP_cons, Event.isTerminal]
    · simp [runLoop_zero, actions_paired, Event.isAction]
  | succ fuel ih =>
    rcases hso : stepTurn cfg st with ⟨evts, res⟩
    have hevts : (stepTurn cfg st).events = evts := by rw [hso]
    have hshape := stepTurn_events_shape cfg st
    rw [hevts] at hshape
    cases res with
    | halt te =>
      rw [runLoop_succ_halt hso]
      refine ⟨⟨te.toEvent, by simp [List.getLast?_concat], toEvent_isTerminal te⟩, ?_, ?_⟩
      · have h0 : List.countP (fun e => e.isTerminal) evts = 0 :=
          List.countP_eq_zero.mpr (fun e he => by simp [hshape.1 e he])
        simp [List.countP_append, h0, List.countP_cons, toEvent_isTerminal te]
      · exact hshape.2 [te.toEvent]
          (by simp [actions_paired, toEvent_not_action te])
    | next st' =>
      rw [runLoop_succ_next hso]
      obtain ⟨⟨e, hlast, hterm⟩, hcount, hpair⟩ := ih st'
      refine ⟨⟨e, ?_, hterm⟩, ?_, ?_⟩
      · rw [List.getLast?_append, hlast]
        rfl
      · have h0 : List.countP (fun e => e.isTerminal) evts = 0 :=
          List.countP_eq_zero.mpr (fun e he => by simp [hshape.1 e he])
        rw [List.countP_append, h0]
        simpa using hcount
      · exact hshape.2 _ hpair

theorem not_cancelled_of_not_terminal {e : Event} (h : e.isTerminal = false) :
    e.isCancelled = false := by
  cases e <;> simp_all [Event.isTerminal, Event.isCancelled]

theorem consume_flag_stop (c : Chunk) (rest : List Chunk) (buf : String)
    (tc : Option ToolCallState) :
    (consumeChunks true buf tc (c :: rest)).cancelled_early = true := by
  simp [consumeChunks]

theorem consume_step_cancelled_early (c : Chunk) (rest : List Chunk) (buf : String)
    (tc : Option ToolCallState) :
    ∃ buf' tc', (consumeChunks false buf tc (c :: rest)).cancelled_early
      = (consumeChunks c.sets_cancel buf' tc' rest).cancelled_early := by
  obtain ⟨payload, sets⟩ := c
  cases payload with
  | text s => exact ⟨buf ++ s, tc, by simp [consumeChunks]⟩
  | tool_frag i name arguments =>
    by_cases hi : i = 0
    · subst hi
      cases hn : (updateTC tc name arguments).name with
      | none =>
        exact ⟨buf, some (updateTC tc name arguments), by simp [consumeChunks, hn]⟩
      | some n =>
        exact ⟨buf, some (updateTC tc name arguments), by simp [consumeChunks, hn]⟩
    · exact ⟨buf, tc, by simp [consumeChunks, hi]⟩

theorem consume_sets_cancelled (chunks : List Chunk) :
    ∀ (cancel : Bool) (buf : String) (tc : Option ToolCallState) (j : Nat) (c : Chunk),
    chunks[j]? = some c → c.sets_cancel = true → j + 1 < chunks.length →
    (consumeChunks cancel buf tc chunks).cancelled_early = true := by
  induction chunks with
  | nil =>
    intro cancel buf tc j c hj
    simp at hj
  | cons hd tl ih =>
    intro cancel buf tc j c hj hset hlt
    cases cancel with
    | true => exact consume_flag_stop hd tl buf tc
    | false =>
      obtain ⟨tl0, tlrest, rfl⟩ : ∃ x xs, tl = x :: xs := by
        cases tl with
        | nil => simp at hlt
        | cons x xs => exact ⟨x, xs, rfl⟩
      obtain ⟨buf', tc', hstep⟩ := consume_step_cancelled_early hd (tl0 :: tlrest) buf tc
      rw [hstep]
      cases j with
      | zero =>
        simp only [List.getElem?_cons_zero, Option.some.injEq] at hj
        subst hj
        rw [hset]
        exact consume_flag_stop tl0 tlrest buf' tc'
      | succ j' =>
        simp only [List.getElem?_cons_succ] at hj
        have hlt' : j' + 1 < (tl0 :: tlrest).length := by
          simp at hlt ⊢
          omega
        exact ih hd.sets_cancel buf' tc' j' c hj hset hlt'

theorem stepTurn_cancelled {cfg : AgentConfig} {st : RunState}
    (h : (consumeChunks st.cancel "" none (cfg.backend st.messages).chunks).cancelled_early = true) :
    stepTurn cfg st =
      ⟨(consumeChunks st.cancel "" none (cfg.backend st.messages).chunks).events,
       .halt (TermEvent.cancelled cancelledMsg)⟩ := by
  unfold stepTurn
  rw [if_pos h]

/-- C7: setting the cooperative cancellation signal while the model
stream is being consumed (some chunk before the last one sets it)
makes the run end in exactly one `cancelled` event, after which nothing
follows; in general every run's event stream has exactly one terminal
event (`final_answer`, `error` or `cancelled`), it is the last event,
and every `action` event is immediately followed by its `observation`
event. -/
theorem executor_event_stream_order (cfg : AgentConfig) (prompt : String)
    (history : List Message) (cancel0 : Bool) :
    ((∃ e, (run cfg prompt history cancel0).1.getLast? = some e ∧ e.isTerminal = true)
      ∧ (run cfg prompt history cancel0).1.countP (fun e => e.isTerminal) = 1
      ∧ actions_paired (run cfg prompt history cancel0).1 = true)
    ∧ (∀ j c, 0 < cfg.max_iterations →
        (cfg.backend (initState prompt history false).messages).chunks[j]? = some c →
        c.sets_cancel = true →
        j + 1 < (cfg.backend (initState prompt history false).messages).chunks.length →
        ((run cfg prompt history false).1.getLast? = some (Event.cancelled cancelledMsg)
          ∧ (run cfg prompt history false).1.countP (fun e => e.isCancelled) = 1)) := by
  constructor
  · exact runLoop_shape cfg cfg.max_iterations (initState prompt history cancel0)
  · intro j c hpos hj hset hlt
    obtain ⟨f, hf⟩ : ∃ f, cfg.max_iterations = f + 1 :=
      ⟨cfg.max_iterations - 1, by omega⟩
    have hco := consume_sets_cancelled
      (cfg.backend (initState prompt history false).messages).chunks
      (initState prompt history false).cancel "" none j c hj hset hlt
    have hstep := @stepTurn_cancelled cfg (initState prompt history false) hco
    have hrun : (run cfg prompt history false).1
        = (consumeChunks (initState prompt history false).cancel "" none
            (cfg.backend (initState prompt history false).messages).chunks).events
          ++ [Event.cancelled cancelledMsg] := by
      unfold run
      rw [hf, runLoop_succ_halt hstep]
      rfl
    rw [hrun]
    constructor
    · simp [List.getLast?_concat]
    · rw [List.countP_append]
      rw [List.countP_eq_zero.mpr (fun e he => by
        simp [not_cancelled_of_not_terminal (consume_events_shape _ _ _ _ e he).1])]
      simp [List.countP_cons, Event.isCancelled]

/-- Witness for C7 at the mock backend that sets the cancellation signal
after its first chunk and keeps streaming. -/
theorem executor_event_stream_order_witness :
    (run cancelCfg "Hello" [] false).1.getLast? = some (Event.cancelled cancelledMsg)
    ∧ (run cancelCfg "Hello" [] false).1.countP (fun e => e.isCancelled) = 1
    ∧ actions_paired (run cancelCfg "Hello" [] false).1 = true := by
  obtain ⟨⟨-, -, hpaired⟩, hB⟩ := executor_event_stream_order cancelCfg "Hello" [] false
  obtain ⟨h1, h2⟩ := hB 0 ⟨.text "Starting...", true⟩ (by decide) rfl rfl (by decide)
  exact ⟨h1, h2, hpaired⟩

theorem consume_no_cancel (chunks : List Chunk) :
    ∀ (buf : String) (tc : Option ToolCallState),
    (∀ c ∈ chunks, c.sets_cancel = false) →
    (consumeChunks false buf tc chunks).cancel = false
    ∧ (consumeChunks false buf tc chunks).cancelled_early = false := by
  induction chunks with
  | nil =>
    intro buf tc _
    exact ⟨rfl, rfl⟩
  | cons hd tl ih =>
    intro buf tc hset
    have hhd : hd.sets_cancel = false := hset hd (by simp)
    have htl : ∀ c ∈ tl, c.sets_cancel = false := fun c hc => hset c (by simp [hc])
    obtain ⟨payload, sets⟩ := hd
    simp only at hhd
    subst hhd
    cases payload with
    | text s =>
      simpa [consumeChunks] using ih (buf ++ s) tc htl
    | tool_frag i name arguments =>
      by_cases hi : i = 0
      · subst hi
        cases hn : (updateTC tc name arguments).name with
        | none => simpa [consumeChunks, hn] using ih buf (some (updateTC tc name arguments)) htl
        | some n => simpa [consumeChunks, hn] using ih buf (some (updateTC tc name arguments)) htl
      · simpa [consumeChunks, hi] using ih buf tc htl

theorem applyValidationFailure_cancel (cfg : AgentConfig) (st : RunState) (m : String) :
    (applyValidationFailure cfg st m).cancel = st.cancel := by
  unfold applyValidationFailure
  by_cases h : cfg.max_validation_retries < st.validation_retry_count + 1
  · simp [h]
  · simp [h]

theorem runToolCall_next (cfg : AgentConfig) (st : RunState) (n rawArgs : String) :
    ∃ evts st', runToolCall cfg st n rawArgs = ⟨evts, .next st'⟩
      ∧ st'.cancel = st.cancel := by
  cases hp : cfg.parse rawArgs with
  | none =>
    rw [runToolCall_eq_parsefail hp]
    exact ⟨_, _, rfl, applyValidationFailure_cancel cfg st parseFailMsg⟩
  | some args =>
    rw [runToolCall_eq_parsed hp]
    cases hb : editBlockFor cfg st.messages n args with
    | some p =>
      rw [runParsed_eq_blocked hb]
      exact ⟨_, _, rfl, rfl⟩
    | none =>
      by_cases hive : (lookupResult cfg n args).is_validation_error = true
      · rw [runParsed_eq_vfail hb hive]
        exact ⟨_, _, rfl, applyValidationFailure_cancel cfg st _⟩
      · rw [runParsed_eq_exec hb (by simpa using hive)]
        exact ⟨_, _, rfl, rfl⟩

theorem stepTurn_toolcall_next (cfg : AgentConfig) (st : RunState)
    (hcancel : st.cancel = false)
    (herr : (cfg.backend st.messages).error = none)
    (hnoset : ∀ c ∈ (cfg.backend st.messages).chunks, c.sets_cancel = false)
    (hname : (turnToolName (cfg.backend st.messages)).isSome = true) :
    ∃ evts st', stepTurn cfg st = ⟨evts, .next st'⟩ ∧ st'.cancel = false := by
  have hco := consume_no_cancel (cfg.backend st.messages).chunks "" none hnoset
  unfold stepTurn
  rw [hcancel]
  rw [if_neg (by simp [hco.2])]
  rw [herr]
  unfold turnToolName at hname
  cases hct : (consumeChunks false "" none (cfg.backend st.messages).chunks).tc with
  | none =>
    rw [hct] at hname
    simp at hname
  | some t =>
    rw [hct] at hname
    obtain ⟨tname, targs⟩ := t
    cases htn : tname with
    | none =>
      subst htn
      simp at hname
    | some nm =>
      subst htn
      rw [show endOfTurn cfg { st with cancel := (consumeChunks false "" none (cfg.backend st.messages).chunks).cancel }
            (consumeChunks false "" none (cfg.backend st.messages).chunks).final_buf
            (some ⟨some nm, targs⟩)
          = runToolCall cfg { st with cancel := (consumeChunks false "" none (cfg.backend st.messages).chunks).cancel } nm targs
        from rfl]
      obtain ⟨evts, st', heq, hcanc⟩ :=
        runToolCall_next cfg
          { st with cancel := (consumeChunks false "" none (cfg.backend st.messages).chunks).cancel } nm targs
      rw [heq]
      exact ⟨_, st', rfl, by rw [hcanc]; exact hco.1⟩

theorem runLoop_all_toolcalls (cfg : AgentConfig)
    (hturn : ∀ msgs, (cfg.backend msgs).error = none
      ∧ (∀ c ∈ (cfg.backend msgs).chunks, c.sets_cancel = false)
      ∧ (turnToolName (cfg.backend msgs)).isSome = true) :
    ∀ (fuel : Nat) (st : RunState), st.cancel = false →
      (runLoop cfg fuel st).1.countP (fun e => e.isFinalAnswer) = 1
      ∧ (runLoop cfg fuel st).1.getLast? = some (Event.final_answer maxIterationsMsg)
      ∧ (runLoop cfg fuel st).2 = fuel := by
  intro fuel
  induction fuel with
  | zero =>
    intro st _
    refine ⟨?_, by simp [runLoop_zero], rfl⟩
    simp [runLoop_zero, List.countP_cons, Event.isFinalAnswer]
  | succ fuel ih =>
    intro st hc
    obtain ⟨evts, st', heq, hc'⟩ :=
      stepTurn_toolcall_next cfg st hc (hturn _).1 (hturn _).2.1 (hturn _).2.2
    have hevts : (stepTurn cfg st).events = evts := by rw [heq]
    have hshape := stepTurn_events_shape cfg st
    rw [hevts] at hshape
    obtain ⟨ih1, ih2, ih3⟩ := ih st' hc'
    rw [runLoop_succ_next heq]
    refine ⟨?_, ?_, by simpa using ih3⟩
    · have h0 : List.countP (fun e => e.isFinalAnswer) evts = 0 :=
        List.countP_eq_zero.mpr
          (fun e he => by simp [not_finalAnswer_of_not_terminal (hshape.1 e he)])
      rw [List.countP_append, h0]
      simpa using ih1
    · rw [List.getLast?_append, ih2]
      rfl

/-- C8: with `max_iterations = 2` and a backend that returns a tool
call on every turn, the run makes no more than 2 model calls and its
event stream contains exactly one `final_answer` event, the synthetic
one whose content mentions "maximum iterations". -/
theorem executor_max_iterations (cfg : AgentConfig) (prompt : String)
    (history : List Message)
    (hmax : cfg.max_iterations = 2)
    (hturn : ∀ msgs, (cfg.backend msgs).error = none
      ∧ (∀ c ∈ (cfg.backend msgs).chunks, c.sets_cancel = false)
      ∧ (turnToolName (cfg.backend msgs)).isSome = true) :
    (run cfg prompt history false).2 ≤ 2
    ∧ (run cfg prompt history false).1.countP (fun e => e.isFinalAnswer) = 1
    ∧ (run cfg prompt history false).1.getLast? = some (Event.final_answer maxIterationsMsg)
    ∧ mentions maxIterationsMsg "maximum iterations" := by
  obtain ⟨h1, h2, h3⟩ :=
    runLoop_all_toolcalls cfg hturn cfg.max_iterations (initState prompt history false) rfl
  unfold run
  rw [hmax] at h1 h2 h3 ⊢
  exact ⟨Nat.le_of_eq h3, h1, h2,
    ⟨"Reached ", " without completing the task", by decide⟩⟩

/-- Witness for C8 at the always-tool-calling mock backend. -/
theorem executor_max_iterations_witness :
    (run maxIterCfg "Run forever" [] false).2 ≤ 2
    ∧ (run maxIterCfg "Run forever" [] false).1.countP (fun e => e.isFinalAnswer) = 1
    ∧ (run maxIterCfg "Run forever" [] false).1.getLast?
        = some (Event.final_answer maxIterationsMsg) := by
  obtain ⟨h1, h2, h3, -⟩ :=
    executor_max_iterations maxIterCfg "Run forever" [] rfl
      (fun msgs => ⟨rfl, by
        intro c hc
        rcases List.mem_singleton.mp hc with rfl
        rfl, rfl⟩)
  exact ⟨h1, h2, h3⟩

theorem updateTC_first (name : String) (arguments : String) :
    updateTC none (some name) arguments = ⟨some name, arguments⟩ := by
  simp [updateTC]

theorem consume_single_frag (n raw : String) :
    consumeChunks false "" none [⟨.tool_frag 0 (some n) raw, false⟩]
      = ⟨[Event.action_streaming n raw], "", some ⟨some n, raw⟩, false, false⟩ := by
  simp [consumeChunks, updateTC_first]

theorem consume_two_frags (n0 a0 n1 a1 : String) (i1 : Nat) (hi : i1 ≠ 0) :
    consumeChunks false "" none
      [⟨.tool_frag 0 (some n0) a0, false⟩, ⟨.tool_frag i1 (some n1) a1, false⟩]
      = ⟨[Event.action_streaming n0 a0], "", some ⟨some n0, a0⟩, false, false⟩ := by
  simp [consumeChunks, updateTC_first, hi]

theorem record_cancel_eta {st : RunState} (h : st.cancel = false) :
    { st with cancel := false } = st := by
  cases st
  simp_all

theorem stepTurn_of_consume {cfg : AgentConfig} {st : RunState} {n rawArgs : String}
    {evs : List Event}
    (hcancel : st.cancel = false)
    (hcons : consumeChunks false "" none (cfg.backend st.messages).chunks
      = ⟨evs, "", some ⟨some n, rawArgs⟩, false, false⟩)
    (herr : (cfg.backend st.messages).error = none) :
    stepTurn cfg st = ⟨evs ++ (runToolCall cfg st n rawArgs).events,
                       (runToolCall cfg st n rawArgs).result⟩ := by
  unfold stepTurn
  rw [hcancel, hcons]
  rw [if_neg (by simp)]
  rw [herr]
  rw [show endOfTurn cfg { st with cancel := false } "" (some ⟨some n, rawArgs⟩)
      = runToolCall cfg { st with cancel := false } n rawArgs from rfl]
  rw [record_cancel_eta hcancel]

theorem lookupResult_of_found {cfg : AgentConfig} {n : String} {args : Args}
    {t : Tool Args} (h : cfg.tools.lookup n = some t) :
    lookupResult cfg n args = t.validate_and_execute args := by
  unfold lookupResult
  rw [h]

theorem editBlockFor_blocked {cfg : AgentConfig} {msgs : List Message} {n P : String}
    {args : Args} (hedit : cfg.edit_tools.contains n = true)
    (hpath : args.lookup "path" = some P)
    (hvr : validate_before_edit cfg.parse msgs P = false) :
    editBlockFor cfg msgs n args = some P := by
  unfold editBlockFor
  rw [if_pos hedit, hpath]
  dsimp only
  rw [if_neg (by simp [hvr])]

theorem editBlockFor_read {cfg : AgentConfig} {msgs : List Message} {n P : String}
    {args : Args} (hedit : cfg.edit_tools.contains n = true)
    (hpath : args.lookup "path" = some P)
    (hvr : validate_before_edit cfg.parse msgs P = true) :
    editBlockFor cfg msgs n args = none := by
  unfold editBlockFor
  rw [if_pos hedit, hpath]
  dsimp only
  rw [if_pos hvr]

theorem editBlockFor_not_edit {cfg : AgentConfig} {msgs : List Message} {n : String}
    {args : Args} (hedit : cfg.edit_tools.contains n = false) :
    editBlockFor cfg msgs n args = none := by
  unfold editBlockFor
  rw [if_neg (by rw [hedit]; simp)]

/-- C6: an edit-type tool call on path `P` is rejected before execution
when the history holds no completed `file_read` of `P`: no `action`
event is emitted, only the corrective message is appended, and neither
the retry counters nor `tool_call_history` change; the identical call
with a prior `file_read` of `P` in history proceeds to execution and
emits its `action` event. -/
theorem executor_edit_requires_read (cfg : AgentConfig) (st : RunState)
    (n P rawArgs : String) (args : Args)
    (hcancel : st.cancel = false)
    (hturn : cfg.backend st.messages = ⟨[⟨.tool_frag 0 (some n) rawArgs, false⟩], none⟩)
    (hedit : cfg.edit_tools.contains n = true)
    (hparse : cfg.parse rawArgs = some args)
    (hpath : args.lookup "path" = some P) :
    (validate_before_edit cfg.parse st.messages P = false →
      stepTurn cfg st =
        ⟨[Event.action_streaming n rawArgs],
         .next { st with messages := st.messages ++ [corrective (editRequiresReadMsg P)] }⟩)
    ∧ (validate_before_edit cfg.parse st.messages P = true →
       ∀ t : Tool Args, cfg.tools.lookup n = some t →
        (t.validate_and_execute args).is_validation_error = false →
        Event.action n rawArgs ∈ (stepTurn cfg st).events) := by
  have hcons : consumeChunks false "" none (cfg.backend st.messages).chunks
      = ⟨[Event.action_streaming n rawArgs], "", some ⟨some n, rawArgs⟩, false, false⟩ := by
    rw [hturn]
    exact consume_single_frag n rawArgs
  have herr : (cfg.backend st.messages).error = none := by rw [hturn]
  have hstep := stepTurn_of_consume hcancel hcons herr
  constructor
  · intro hvr
    rw [hstep, runToolCall_eq_parsed hparse,
      runParsed_eq_blocked (editBlockFor_blocked hedit hpath hvr)]
    rfl
  · intro hvr t htool hive
    have hivel : (lookupResult cfg n args).is_validation_error = false := by
      rw [lookupResult_of_found htool]
      exact hive
    rw [hstep, runToolCall_eq_parsed hparse,
      runParsed_eq_exec (editBlockFor_read hedit hpath hvr) hivel]
    simp [runExecuted]

/-- Witness for C6 at the `edit_lines`-requesting mock backend, with
and without a prior `file_read` of `/test.py` in history. -/
theorem executor_edit_requires_read_witness :
    ((stepTurn editCfg (initState "Edit the file" [] false)).events.filter
        (fun e => e.isAction) = []
      ∧ (stepTurn editCfg (initState "Edit the file" [] false)).result
          = .next { initState "Edit the file" [] false with
              messages := (initState "Edit the file" [] false).messages
                ++ [corrective (editRequiresReadMsg "/test.py")] })
    ∧ Event.action "edit_lines" "path=/test.py"
        ∈ (stepTurn editCfg (initState "Edit the file" [readMsg] false)).events := by
  obtain ⟨hblock, -⟩ :=
    executor_edit_requires_read editCfg (initState "Edit the file" [] false)
      "edit_lines" "/test.py" "path=/test.py" [("path", "/test.py")]
      rfl rfl rfl rfl rfl
  obtain ⟨-, hexec⟩ :=
    executor_edit_requires_read editCfg (initState "Edit the file" [readMsg] false)
      "edit_lines" "/test.py" "path=/test.py" [("path", "/test.py")]
      rfl rfl rfl rfl rfl
  refine ⟨⟨?_, ?_⟩, ?_⟩
  · rw [hblock (by decide)]
    rfl
  · rw [hblock (by decide)]
  · exact hexec (by decide) (plainTool "edit_lines" "edited") rfl rfl

/-- C9: when one model turn streams complete tool calls at indices 0
and 1, only the index-0 call is accumulated for execution; that turn
emits exactly one `action` event, naming the index-0 tool, and the
index-1 fragments are ignored. -/
theorem executor_first_tool_call_only (cfg : AgentConfig) (st : RunState)
    (n0 a0 n1 a1 : String) (i1 : Nat) (args0 : Args) (t : Tool Args)
    (hcancel : st.cancel = false)
    (hturn : cfg.backend st.messages
      = ⟨[⟨.tool_frag 0 (some n0) a0, false⟩, ⟨.tool_frag i1 (some n1) a1, false⟩], none⟩)
    (hi1 : i1 ≠ 0)
    (hparse : cfg.parse a0 = some args0)
    (hnoedit : cfg.edit_tools.contains n0 = false)
    (htool : cfg.tools.lookup n0 = some t)
    (hive : (t.validate_and_execute args0).is_validation_error = false) :
    (consumeChunks false "" none (cfg.backend st.messages).chunks).tc
      = some ⟨some n0, a0⟩
    ∧ (stepTurn cfg st).events.filter (fun e => e.isAction) = [Event.action n0 a0] := by
  have hcons : consumeChunks false "" none (cfg.backend st.messages).chunks
      = ⟨[Event.action_streaming n0 a0], "", some ⟨some n0, a0⟩, false, false⟩ := by
    rw [hturn]
    exact consume_two_frags n0 a0 n1 a1 i1 hi1
  have herr : (cfg.backend st.messages).error = none := by rw [hturn]
  have hstep := stepTurn_of_consume hcancel hcons herr
  refine ⟨by rw [hcons], ?_⟩
  have hivel : (lookupResult cfg n0 args0).is_validation_error = false := by
    rw [lookupResult_of_found htool]
    exact hive
  rw [hstep, runToolCall_eq_parsed hparse,
    runParsed_eq_exec (editBlockFor_not_edit hnoedit) hivel]
  simp [runExecuted, Event.isAction]

/-- Witness for C9 at the mock backend whose first turn streams `bash`
at index 0 and `file_read` at index 1. -/
theorem executor_first_tool_call_only_witness :
    (consumeChunks false "" none
        (multiCfg.backend (initState "Do things" [] false).messages).chunks).tc
      = some ⟨some "bash", "input=ls"⟩
    ∧ (stepTurn multiCfg (initState "Do things" [] false)).events.filter
        (fun e => e.isAction) = [Event.action "bash" "input=ls"] := by
  exact executor_first_tool_call_only multiCfg (initState "Do things" [] false)
    "bash" "input=ls" "file_read" "path=/test" 1 [("input", "ls")]
    (plainTool "bash" "ok")
    rfl rfl (by decide) rfl rfl rfl rfl

end OpenClaudeUI
